import Mathlib

/-!
Verification development for a weighted prize-wheel engine.

The source is JavaScript (wheel.js, constants.js, util.js, item.js).  All
numbers are embedded as exact rationals; JS remainder (sign of the
dividend) is modelled by jsRem, and the 9-decimal rounding helper
fixFloat by rounding at 10^9.  Stateful methods of the Wheel class are
embedded as pure functions on a Wheel structure; event callbacks are
modelled by recording the raised events in the state.
-/

namespace SpinWheel

/-- Truncation toward zero, matching the JS remainder semantics. -/
def jsTrunc (q : ℚ) : ℤ :=
  if 0 ≤ q then ⌊q⌋ else ⌈q⌉

/-- JS remainder operator a % b: the result has the sign of the dividend. -/
def jsRem (a b : ℚ) : ℚ :=
  a - b * (jsTrunc (a / b) : ℚ)

/-- util.fixFloat: round to a maximum of 9 decimal places
(Number(f.toFixed(9))); toFixed rounds ties to the larger value, which is
Mathlib round. -/
def fixFloat (f : ℚ) : ℚ :=
  ((round (f * 10 ^ 9) : ℤ) : ℚ) / 10 ^ 9

/-- util.addAngle: sum of two angles normalized into the range zero
(inclusive) to 360 (exclusive). -/
def addAngle (a b : ℚ) : ℚ :=
  let sum := a + b
  let result := if 0 < sum then jsRem sum 360 else 360 + jsRem sum 360
  if result = 360 then 0 else result

/-- util.diffAngle: shortest signed difference between two angles via the
180-degree offset trick. -/
def diffAngle (a b : ℚ) : ℚ :=
  let offsetFrom180 := 180 - b
  let aWithOffset := addAngle a offsetFrom180
  180 - aWithOffset

/-- Modelled from the spec: normalize is described in the spec (AngleMath)
but has no single counterpart function in the source; per the spec it
reduces an angle to the range zero to 360 by first applying the 9-decimal
rounding, then the modulo, then clamping a result of exactly 360 to 0. -/
def normalize (a : ℚ) : ℚ :=
  let f := fixFloat a
  let m := f - 360 * (⌊f / 360⌋ : ℚ)
  if m = 360 then 0 else m

/-- util.isAngleBetween: half-open membership test on the circle; a
wrapping interval is treated as passing through zero. -/
def isAngleBetween (angle arcStart arcEnd : ℚ) : Bool :=
  if arcStart < arcEnd then decide (arcStart ≤ angle ∧ angle < arcEnd)
  else decide (arcStart ≤ angle ∨ angle < arcEnd)

/-- util.calcWheelRotationForTargetAngle: the new wheel rotation placing
the relative angle targetAngle at zero degrees, spinning in the given
direction. -/
def calcWheelRotationForTargetAngle (currentRotation targetAngle direction : ℚ) : ℚ :=
  let angle0 := jsRem (jsRem currentRotation 360 + targetAngle) 360
  let angle1 := fixFloat angle0
  let angle2 := jsRem (if direction = 1 then 360 - angle1 else 360 + angle1) 360
  let angle3 := angle2 * direction
  currentRotation + angle3

/-- An item of the wheel restricted to the data the layout uses: its
weight (item.js stores display metadata too, which the layout ignores). -/
structure ItemW where
  weight : ℚ
deriving DecidableEq, Repr

/-- A start and end angle pair as produced by Wheel.getItemAngles.  The
source field named end is a Lean keyword, so it is called stop here. -/
structure Range where
  start : ℚ
  stop : ℚ
deriving DecidableEq, Repr

/-- Sum of the item weights (the weightSum loop of getItemAngles). -/
def totalWeight (items : List ItemW) : ℚ :=
  (items.map ItemW.weight).sum

/-- The accumulation loop of Wheel.getItemAngles: given the running start
angle and the angle per unit weight, emit one range per item. -/
def anglesAcc : List ItemW → ℚ → ℚ → List Range
  | [], _, _ => []
  | item :: rest, lastItemAngle, weightedItemAngle =>
    let itemAngle := item.weight * weightedItemAngle
    ⟨lastItemAngle, lastItemAngle + itemAngle⟩ ::
      anglesAcc rest (lastItemAngle + itemAngle) weightedItemAngle

/-- Overwrite the end angle of the last range (the forced-closure step of
Wheel.getItemAngles). -/
def setLastEnd : List Range → ℚ → List Range
  | [], _ => []
  | [r], v => [⟨r.start, v⟩]
  | r :: s :: rest, v => r :: setLastEnd (s :: rest) v

/-- Wheel.getItemAngles: one start and end range per item, accumulating
from initialRotation; when there is more than one item the last end is
forced to the first start plus 360.  The source computes
360 / weightSum unconditionally; with weightSum zero JS yields Infinity
where Lean rational division yields 0 — claims touching that case only
inspect the shape of the output, which is the same. -/
def getItemAngles (items : List ItemW) (initialRotation : ℚ) : List Range :=
  let weightSum := totalWeight items
  let weightedItemAngle := 360 / weightSum
  let angles := anglesAcc items initialRotation weightedItemAngle
  if 1 < items.length then
    setLastEnd angles ((angles.headD ⟨0, 0⟩).start + 360)
  else
    angles

/-- Center of a range: start + (end - start) / 2. -/
def centerAngleOf (a : Range) : ℚ :=
  a.start + (a.stop - a.start) / 2

/-- Item.getCenterAngle: center of the item range in the layout at base
rotation zero (getItemAngles is called with its default argument 0). -/
def getCenterAngle (items : List ItemW) (index : ℕ) : ℚ :=
  centerAngleOf ((getItemAngles items 0).getD index ⟨0, 0⟩)

/-- A JS value as far as the property setters inspect it: undefined,
null, a (non-NaN) number, NaN, a string, or a boolean. -/
inductive JsVal where
  | undef : JsVal
  | nullv : JsVal
  | num : ℚ → JsVal
  | nan : JsVal
  | str : String → JsVal
  | boolv : Bool → JsVal
deriving DecidableEq, Repr

/-- util.setProp: return the (possibly action-transformed) value when it
is valid, the default when the value is undefined, and throw otherwise.
Throwing is modelled by Except.error carrying the message. -/
def setProp (isValid : Bool) (val : JsVal) (errorMessage : String)
    (defaultValue : JsVal) (action : Option (JsVal → JsVal)) : Except String JsVal :=
  if isValid then
    .ok (match action with
         | some f => f val
         | none => val)
  else if val = JsVal.undef then
    .ok defaultValue
  else
    .error errorMessage

/-- Assignment of a Wheel property through setProp, as in the source
pattern (this dot underscore-x := util.setProp ...). The result pairs the
stored value with a flag telling whether an error was thrown; on a throw
the stored value is the old one, because setProp throws before the
assignment happens. -/
def wheelAssign (old : JsVal) (isValid : Bool) (val : JsVal) (errorMessage : String)
    (defaultValue : JsVal) (action : Option (JsVal → JsVal)) : JsVal × Bool :=
  match setProp isValid val errorMessage defaultValue action with
  | .ok v => (v, false)
  | .error _ => (old, true)

/-- Validity test of the Wheel.borderColor setter: typeof val is string. -/
def borderColorValid : JsVal → Bool
  | .str _ => true
  | _ => false

/-- Wheel.borderColor setter (default from constants.js). -/
def wheelBorderColorSet (old val : JsVal) : JsVal × Bool :=
  wheelAssign old (borderColorValid val) val "Wheel.borderColor must be a string"
    (JsVal.str "#000") none

/-- The typeof val is number test of the Item setters; NaN has typeof
number in JS. -/
def typeofNumber : JsVal → Bool
  | .num _ => true
  | .nan => true
  | _ => false

/-- Item.weight setter: stores the value when typeof val is number and
silently falls back to the item default (1) otherwise; it never throws,
so the thrown flag is always false. -/
def itemWeightSet (old val : JsVal) : JsVal × Bool :=
  match val with
  | .num q => (.num q, false)
  | .nan => (.nan, false)
  | _ => (JsVal.num 1, false)

/-- Validity test of the Wheel.pointerAngle setter: isNumber val and
val is at least 0. -/
def pointerAngleValid : JsVal → Bool
  | .num q => decide (0 ≤ q)
  | _ => false

/-- Wheel.pointerAngle setter: valid values are stored modulo 360 through
the action, undefined falls back to the default 0, anything else throws. -/
def pointerAngleSet (old val : JsVal) : JsVal × Bool :=
  wheelAssign old (pointerAngleValid val) val
    "Wheel.pointerAngle must be a number between 0 and 360" (JsVal.num 0)
    (some fun v => match v with
                   | .num q => .num (jsRem q 360)
                   | x => x)

/-- A recorded onRest notification: the payload fields the source passes
(currentIndex and rotation). -/
structure RestEvent where
  currentIndex : ℤ
  rotation : ℚ
deriving DecidableEq, Repr

/-- A recorded drag event: angular delta, translated point, timestamp. -/
structure DragEvent where
  distance : ℚ
  x : ℚ
  y : ℚ
  tnow : ℚ
deriving DecidableEq, Repr

/-- constants.js dragCapturePeriod. -/
def dragCapturePeriod : ℚ := 250

/-- Wheel.isDragEventTooOld. -/
def isDragEventTooOld (tnow : ℚ) (event : DragEvent) : Bool :=
  decide (tnow - event.tnow > dragCapturePeriod)

/-- The summation loop of Wheel.dragEnd: walk the history newest first,
summing deltas, stopping at the first event that is too old. -/
def dragDistanceAt (tnow : ℚ) : List DragEvent → ℚ
  | [] => 0
  | event :: rest =>
    if isDragEventTooOld tnow event then 0
    else event.distance + dragDistanceAt tnow rest

/-- The Wheel state the motion engine mutates.  Rendering-only fields are
omitted; raised onRest events are recorded as a list (newest first) and
raised onCurrentIndexChange and onSpin events as counters. -/
structure Wheel where
  items : List ItemW
  pointerAngle : ℚ
  rotation : ℚ
  currentIndex : ℤ
  isInitialising : Bool
  rotationSpeed : ℚ
  rotationDirection : ℚ
  rotationResistance : ℚ
  rotationSpeedMax : ℚ
  lastSpinFrameTime : Option ℚ
  spinToTimeStart : ℚ
  spinToTimeEnd : Option ℚ
  spinToStartRotation : ℚ
  spinToEndRotation : ℚ
  spinToEasingFunction : ℚ → ℚ
  dragEvents : List DragEvent
  isDragging : Bool
  restEvents : List RestEvent
  indexEvents : ℕ
  spinEvents : ℕ

/-- The scan loop of Wheel.refreshCurrentIndex: index of the first range
containing the pointer angle (ranges taken modulo 360 with the JS
remainder). -/
def firstHit (pointer : ℚ) : List Range → ℕ → Option ℕ
  | [], _ => none
  | a :: rest, i =>
    if isAngleBetween pointer (jsRem a.start 360) (jsRem a.stop 360) then some i
    else firstHit pointer rest (i + 1)

/-- Wheel.refreshCurrentIndex as a pure function from the fields it reads
to the new current index and the number of onCurrentIndexChange events
raised (0 or 1; suppressed while initialising). -/
def refreshIndexCore (itemsLen : ℕ) (cur : ℤ) (isInit : Bool) (pointer : ℚ)
    (angles : List Range) : ℤ × ℕ :=
  let cur0 := if itemsLen = 0 then -1 else cur
  match firstHit pointer angles 0 with
  | none => (cur0, 0)
  | some i =>
    if cur0 = (i : ℤ) then (cur0, 0)
    else ((i : ℤ), if isInit then 0 else 1)

/-- The Wheel.rotation setter on a numeric value: store the rotation and
re-run refreshCurrentIndex on the layout at the new rotation. -/
def setRotation (w : Wheel) (val : ℚ) : Wheel :=
  let p := refreshIndexCore w.items.length w.currentIndex w.isInitialising
    w.pointerAngle (getItemAngles w.items val)
  { w with rotation := val, currentIndex := p.1, indexEvents := w.indexEvents + p.2 }

/-- Wheel.raiseEvent_onRest: record the payload built from the current
index and rotation. -/
def raiseRest (w : Wheel) : Wheel :=
  { w with restEvents := ⟨w.currentIndex, w.rotation⟩ :: w.restEvents }

/-- Wheel.getRotationSpeedPlusDrag: decay the speed by the resistance
over the elapsed time, clamping to exactly 0 once the decayed speed
crosses zero against the spin direction. -/
def getRotationSpeedPlusDrag (w : Wheel) (delta : ℚ) : ℚ :=
  let newRotationSpeed :=
    w.rotationSpeed + w.rotationResistance * (delta / 1000) * w.rotationDirection
  if (w.rotationDirection = 1 ∧ newRotationSpeed < 0) ∨
     (w.rotationDirection = -1 ∧ 0 ≤ newRotationSpeed) then 0
  else newRotationSpeed

/-- Wheel.animateRotation: the per-tick advance.  The spinTo branch runs
when spinToTimeEnd is set; otherwise the spin branch runs when
lastSpinFrameTime is set; otherwise the wheel is idle and nothing
changes. -/
def animateRotation (w : Wheel) (tnow : ℚ) : Wheel :=
  match w.spinToTimeEnd with
  | some timeEnd =>
    if timeEnd ≤ tnow then
      let w1 := setRotation w w.spinToEndRotation
      raiseRest { w1 with spinToTimeEnd := none }
    else
      let duration := timeEnd - w.spinToTimeStart
      let delta0 := (tnow - w.spinToTimeStart) / duration
      let delta := if delta0 < 0 then 0 else delta0
      let distance := w.spinToEndRotation - w.spinToStartRotation
      setRotation w (w.spinToStartRotation + distance * w.spinToEasingFunction delta)
  | none =>
    match w.lastSpinFrameTime with
    | some lastTime =>
      let delta := tnow - lastTime
      if 0 < delta then
        let w1 := setRotation w (w.rotation + jsRem ((delta / 1000) * w.rotationSpeed) 360)
        let newSpeed := getRotationSpeedPlusDrag w1 delta
        let w2 := { w1 with rotationSpeed := newSpeed }
        if newSpeed = 0 then raiseRest { w2 with lastSpinFrameTime := none }
        else { w2 with lastSpinFrameTime := some tnow }
      else w
    | none => w

/-- Repeated per-frame advancing with the given timestamps. -/
def runTicks (w : Wheel) : List ℚ → Wheel
  | [] => w
  | t :: ts => runTicks (animateRotation w t) ts

/-- Wheel.stop: force both animation modes off. -/
def stopWheel (w : Wheel) : Wheel :=
  { w with spinToTimeEnd := none, rotationSpeed := 0, lastSpinFrameTime := none }

/-- Wheel.limitSpeed: clamp the speed into the symmetric range given by
max. -/
def limitSpeed (speed maxSpeed : ℚ) : ℚ :=
  max (min speed maxSpeed) (-maxSpeed)

/-- Wheel.beginSpin: stop, clamp the requested speed, record the frame
time and the direction, and raise onSpin when the speed is nonzero. -/
def beginSpin (w : Wheel) (speed : ℚ) (tnow : ℚ) : Wheel :=
  let w1 := stopWheel w
  let s := limitSpeed speed w1.rotationSpeedMax
  let w2 := { w1 with rotationSpeed := s, lastSpinFrameTime := some tnow,
                      rotationDirection := if 0 ≤ s then 1 else -1 }
  if s ≠ 0 then { w2 with spinEvents := w2.spinEvents + 1 } else w2

/-- Wheel.dragEnd: sum the deltas of the events still inside the capture
window (truncating the history at the first stale event), and when the
summed distance is nonzero begin a velocity spin extrapolated from the
capture window. -/
def dragEnd (w : Wheel) (tnow : ℚ) : Wheel :=
  let dragDistance := dragDistanceAt tnow w.dragEvents
  let w1 := { w with isDragging := false,
                     dragEvents := w.dragEvents.takeWhile
                       (fun e => !(isDragEventTooOld tnow e)) }
  if dragDistance = 0 then w1
  else beginSpin w1 (dragDistance * (1000 / dragCapturePeriod)) tnow

/-- Wheel.spinToItem: the target rotation it hands to animate.  The
spinToCenter branch uses the item center; the random branch draws a
random angle inside the item range, which is modelled by passing the
drawn angle in as randAngle. -/
def spinToItemTargetRotation (w : Wheel) (itemIndex : ℕ) (spinToCenter : Bool)
    (randAngle : ℚ) (numberOfRevolutions : ℚ) (direction : ℚ) : ℚ :=
  let itemAngle := if spinToCenter then getCenterAngle w.items itemIndex else randAngle
  calcWheelRotationForTargetAngle w.rotation (itemAngle - w.pointerAngle) direction
    + numberOfRevolutions * 360 * direction

/-- A baseline wheel populated with the defaults from constants.js (for
the fields the model keeps); the easing function is irrelevant to the
claims below and is set to the identity. -/
def baseWheel : Wheel where
  items := []
  pointerAngle := 0
  rotation := 0
  currentIndex := -1
  isInitialising := false
  rotationSpeed := 0
  rotationDirection := 1
  rotationResistance := -35
  rotationSpeedMax := 300
  lastSpinFrameTime := none
  spinToTimeStart := 0
  spinToTimeEnd := none
  spinToStartRotation := 0
  spinToEndRotation := 0
  spinToEasingFunction := id
  dragEvents := []
  isDragging := false
  restEvents := []
  indexEvents := 0
  spinEvents := 0

/-- A wheel in the middle of a clockwise velocity spin: speed 1, strong
resistance, last frame at time 0 (used to exercise the decay clamp). -/
def wheelDecay : Wheel := { baseWheel with
  rotationSpeed := 1
  rotationDirection := 1
  rotationResistance := -1000
  lastSpinFrameTime := some 0 }

/-- A wheel in the middle of a spinTo animation from rotation 10 to 370
over the time interval 0 to 1000. -/
def wheelEase : Wheel := { baseWheel with
  items := [ItemW.mk 1]
  rotation := 10
  spinToTimeStart := 0
  spinToTimeEnd := some 1000
  spinToStartRotation := 10
  spinToEndRotation := 370 }

/-- A wheel in the middle of a velocity spin whose last frame was at
time 10 (used to exercise the non-positive-delta no-op). -/
def wheelStale : Wheel := { baseWheel with
  rotationSpeed := 50
  lastSpinFrameTime := some 10 }

/-- A wheel whose drag history holds three moves of 10 degrees each at
times 200, 100 and 0 (newest first, as dragMove unshifts). -/
def wheelDragged : Wheel := { baseWheel with
  dragEvents := [⟨10, 0, 0, 200⟩, ⟨10, 0, 0, 100⟩, ⟨10, 0, 0, 0⟩] }

/-- A four-slice equal-weight wheel whose first slice at base rotation 0
is the range 0 to 90, currently rotated to 123.456 degrees. -/
def wheelQuarter : Wheel := { baseWheel with
  items := [ItemW.mk 1, ItemW.mk 1, ItemW.mk 1, ItemW.mk 1]
  rotation := 123456 / 1000 }

/-! Helper lemmas about the JS remainder and angle arithmetic. -/

theorem jsRem_bounds_of_nonneg (a : ℚ) (h : 0 ≤ a) :
    0 ≤ jsRem a 360 ∧ jsRem a 360 < 360 := by
  have hd : (0 : ℚ) ≤ a / 360 := div_nonneg h (by norm_num)
  have hf : ((⌊a / 360⌋ : ℤ) : ℚ) ≤ a / 360 := Int.floor_le _
  have hf2 : a / 360 < ((⌊a / 360⌋ : ℤ) : ℚ) + 1 := Int.lt_floor_add_one _
  have e1 : a / 360 * 360 = a := div_mul_cancel₀ a (by norm_num)
  have t1 : ((⌊a / 360⌋ : ℤ) : ℚ) * 360 ≤ a / 360 * 360 :=
    mul_le_mul_of_nonneg_right hf (by norm_num)
  have t2 : a / 360 * 360 < (((⌊a / 360⌋ : ℤ) : ℚ) + 1) * 360 :=
    mul_lt_mul_of_pos_right hf2 (by norm_num)
  rw [e1] at t1 t2
  rw [jsRem, jsTrunc, if_pos hd]
  constructor <;> linarith

theorem jsRem_bounds_of_nonpos (a : ℚ) (h : a ≤ 0) :
    -360 < jsRem a 360 ∧ jsRem a 360 ≤ 0 := by
  by_cases hd : 0 ≤ a / 360
  · have ha : a = 0 := by
      have h1 : a / 360 * 360 = a := div_mul_cancel₀ a (by norm_num)
      have h2 : 0 * 360 ≤ a / 360 * 360 :=
        mul_le_mul_of_nonneg_right hd (by norm_num)
      rw [h1] at h2
      linarith
    subst ha
    norm_num [jsRem, jsTrunc]
  · have hc : a / 360 ≤ ((⌈a / 360⌉ : ℤ) : ℚ) := Int.le_ceil _
    have hc2 : ((⌈a / 360⌉ : ℤ) : ℚ) < a / 360 + 1 := Int.ceil_lt_add_one _
    have e1 : a / 360 * 360 = a := div_mul_cancel₀ a (by norm_num)
    have t1 : a / 360 * 360 ≤ ((⌈a / 360⌉ : ℤ) : ℚ) * 360 :=
      mul_le_mul_of_nonneg_right hc (by norm_num)
    have t2 : ((⌈a / 360⌉ : ℤ) : ℚ) * 360 < (a / 360 + 1) * 360 :=
      mul_lt_mul_of_pos_right hc2 (by norm_num)
    rw [e1] at t1
    rw [jsRem, jsTrunc, if_neg hd]
    constructor <;> nlinarith

theorem addAngle_spec (a b : ℚ) :
    (0 ≤ addAngle a b ∧ addAngle a b < 360) ∧
    ∃ k : ℤ, addAngle a b = a + b - 360 * k := by
  by_cases hs : 0 < a + b
  · obtain ⟨h0, h1⟩ := jsRem_bounds_of_nonneg (a + b) hs.le
    have hne : jsRem (a + b) 360 ≠ 360 := ne_of_lt h1
    simp only [addAngle, if_pos hs, if_neg hne]
    refine ⟨⟨h0, h1⟩, jsTrunc ((a + b) / 360), ?_⟩
    rw [jsRem]
  · have hs' : a + b ≤ 0 := not_lt.mp hs
    obtain ⟨h0, h1⟩ := jsRem_bounds_of_nonpos (a + b) hs'
    by_cases he : 360 + jsRem (a + b) 360 = 360
    · have hz : jsRem (a + b) 360 = 0 := by linarith
      simp only [addAngle, if_neg hs, if_pos he]
      refine ⟨⟨le_refl 0, by norm_num⟩, jsTrunc ((a + b) / 360), ?_⟩
      rw [jsRem] at hz
      linarith
    · simp only [addAngle, if_neg hs, if_neg he]
      have hlt : 360 + jsRem (a + b) 360 < 360 :=
        lt_of_le_of_ne (by linarith) he
      refine ⟨⟨by linarith, hlt⟩, jsTrunc ((a + b) / 360) - 1, ?_⟩
      rw [jsRem]
      push_cast
      ring

theorem eq_of_sub_intmul (x y : ℚ) (hx0 : 0 ≤ x) (hx1 : x < 360)
    (hy0 : 0 ≤ y) (hy1 : y < 360) (k : ℤ) (h : x - y = 360 * k) : x = y := by
  have hk0 : k = 0 := by
    have hb1 : (-1 : ℚ) < (k : ℚ) := by nlinarith
    have hb2 : (k : ℚ) < 1 := by nlinarith
    have hb1' : (-1 : ℤ) < k := by exact_mod_cast hb1
    have hb2' : k < 1 := by exact_mod_cast hb2
    omega
  rw [hk0] at h
  push_cast at h
  linarith

theorem fixFloat_add_intmul (x : ℚ) (k : ℤ) :
    fixFloat (x + 360 * k) = fixFloat x + 360 * k := by
  have h : (x + 360 * (k : ℚ)) * 10 ^ 9 = x * 10 ^ 9 + ((360 * k * 10 ^ 9 : ℤ) : ℚ) := by
    push_cast
    ring
  rw [fixFloat, h, round_add_int, fixFloat]
  field_simp

theorem normalize_add_intmul (x : ℚ) (k : ℤ) :
    normalize (x + 360 * k) = normalize x := by
  simp only [normalize, fixFloat_add_intmul]
  have hdiv : (fixFloat x + 360 * (k : ℚ)) / 360 = fixFloat x / 360 + (k : ℚ) := by
    field_simp
    ring
  rw [hdiv, Int.floor_add_int]
  have hm : fixFloat x + 360 * (k : ℚ) - 360 * ((⌊fixFloat x / 360⌋ + k : ℤ) : ℚ)
      = fixFloat x - 360 * ((⌊fixFloat x / 360⌋ : ℤ) : ℚ) := by
    push_cast
    ring
  rw [hm]

theorem fixFloat_eq_self (q : ℚ) (h : ∃ m : ℤ, q * 10 ^ 9 = m) : fixFloat q = q := by
  obtain ⟨m, hm⟩ := h
  rw [fixFloat, hm, round_intCast]
  field_simp
  linarith [hm]

/-- C6: for all angles a and b, normalizing addAngle(a, diffAngle(a, b))
yields the same value as normalizing b: the shortest signed difference
returned by diffAngle, added back to a, recovers b modulo 360. -/
theorem diffAngle_roundtrip (a b : ℚ) :
    normalize (addAngle a (diffAngle a b)) = normalize b := by
  obtain ⟨_, k1, hk1⟩ := addAngle_spec a (180 - b)
  obtain ⟨_, k2, hk2⟩ := addAngle_spec a (diffAngle a b)
  have hd : diffAngle a b = 180 - addAngle a (180 - b) := rfl
  have he : addAngle a (diffAngle a b) = b + 360 * ((k1 - k2 : ℤ) : ℚ) := by
    rw [hk2, hd, hk1]
    push_cast
    ring
  rw [he, normalize_add_intmul b (k1 - k2)]

/-! Helper lemmas about the slice layout. -/

theorem anglesAcc_length (items : List ItemW) (c wia : ℚ) :
    (anglesAcc items c wia).length = items.length := by
  induction items generalizing c with
  | nil => rfl
  | cons it rest ih => simp [anglesAcc, ih]

theorem anglesAcc_getD_zero_start (items : List ItemW) (c wia : ℚ) (d : Range)
    (h : items ≠ []) : ((anglesAcc items c wia).getD 0 d).start = c := by
  cases items with
  | nil => exact absurd rfl h
  | cons it rest => rfl

theorem anglesAcc_headD_start (items : List ItemW) (c wia : ℚ) (d : Range)
    (h : items ≠ []) : ((anglesAcc items c wia).headD d).start = c := by
  cases items with
  | nil => exact absurd rfl h
  | cons it rest => rfl

theorem anglesAcc_extent (items : List ItemW) (c wia : ℚ) (i : ℕ) (d : Range)
    (dI : ItemW) (h : i < items.length) :
    ((anglesAcc items c wia).getD i d).stop - ((anglesAcc items c wia).getD i d).start
      = (items.getD i dI).weight * wia := by
  induction items generalizing c i with
  | nil => simp at h
  | cons it rest ih =>
    cases i with
    | zero => simp [anglesAcc]
    | succ i =>
      simp only [anglesAcc, List.getD_cons_succ]
      exact ih (c + it.weight * wia) i (Nat.succ_lt_succ_iff.mp h)

theorem anglesAcc_chain (items : List ItemW) (c wia : ℚ) (i : ℕ) (d : Range)
    (h : i + 1 < items.length) :
    ((anglesAcc items c wia).getD (i + 1) d).start
      = ((anglesAcc items c wia).getD i d).stop := by
  induction items generalizing c i with
  | nil => simp at h
  | cons it rest ih =>
    cases i with
    | zero =>
      have hne : rest ≠ [] := by
        intro hr
        rw [hr] at h
        simp at h
      simp only [anglesAcc, List.getD_cons_succ, List.getD_cons_zero]
      exact anglesAcc_getD_zero_start rest (c + it.weight * wia) wia d hne
    | succ i =>
      simp only [anglesAcc, List.getD_cons_succ]
      exact ih (c + it.weight * wia) i (Nat.succ_lt_succ_iff.mp h)

theorem anglesAcc_lastEnd (items : List ItemW) (c wia : ℚ) (d : Range)
    (h : items ≠ []) :
    ((anglesAcc items c wia).getD (items.length - 1) d).stop
      = c + totalWeight items * wia := by
  induction items generalizing c with
  | nil => exact absurd rfl h
  | cons it rest ih =>
    by_cases hr : rest = []
    · subst hr
      simp [anglesAcc, totalWeight]
    · have hpos : 0 < rest.length := List.length_pos.mpr hr
      have hidx : (it :: rest).length - 1 = (rest.length - 1) + 1 := by
        simp only [List.length_cons]
        omega
      rw [hidx]
      simp only [anglesAcc, List.getD_cons_succ]
      rw [ih (c + it.weight * wia) hr]
      simp only [totalWeight, List.map_cons, List.sum_cons]
      rw [totalWeight] at *
      ring

theorem setLastEnd_self (l : List Range) (v : ℚ) (d : Range) (h : l ≠ [])
    (hstop : (l.getD (l.length - 1) d).stop = v) : setLastEnd l v = l := by
  induction l with
  | nil => exact absurd rfl h
  | cons r rest ih =>
    cases rest with
    | nil =>
      obtain ⟨rs, re⟩ := r
      simp only [List.length_cons, List.length_nil, Nat.zero_add,
        Nat.sub_self, List.getD_cons_zero] at hstop
      simp only [setLastEnd, hstop]
    | cons s rest2 =>
      have h2 : (s :: rest2) ≠ [] := by simp
      have hidx : (r :: s :: rest2).length - 1 = ((s :: rest2).length - 1) + 1 := by
        simp only [List.length_cons]
        omega
      rw [hidx, List.getD_cons_succ] at hstop
      simp only [setLastEnd]
      rw [ih h2 hstop]

theorem getItemAngles_eq_acc (items : List ItemW) (r : ℚ)
    (hW : totalWeight items ≠ 0) :
    getItemAngles items r = anglesAcc items r (360 / totalWeight items) := by
  by_cases hl : 1 < items.length
  · have hne : items ≠ [] := by
      intro h
      rw [h] at hl
      simp at hl
    simp only [getItemAngles, if_pos hl]
    apply setLastEnd_self _ _ ⟨0, 0⟩
    · intro h
      apply hne
      have hlen := anglesAcc_length items r (360 / totalWeight items)
      rw [h] at hlen
      exact List.length_eq_zero.mp hlen.symm
    · rw [anglesAcc_length, anglesAcc_lastEnd items r _ _ hne,
        anglesAcc_headD_start items r _ _ hne]
      have hmul : totalWeight items * (360 / totalWeight items) = 360 := by
        field_simp
      rw [hmul]
  · simp only [getItemAngles, if_neg hl]

/-- C1: for every item list with total weight strictly positive and any
base rotation r, getItemAngles items r returns one range per item in item
order; the first range starts at r, each later range starts where the
previous one ends, every range's extent is 360 times the item's weight
share of the total, and with more than one item the last range's end is
exactly the first range's start plus 360. -/
theorem getItemAngles_partition (items : List ItemW) (r : ℚ)
    (hW : 0 < totalWeight items) :
    (getItemAngles items r).length = items.length ∧
    ((getItemAngles items r).getD 0 ⟨0, 0⟩).start = r ∧
    (∀ i, i + 1 < (getItemAngles items r).length →
      ((getItemAngles items r).getD (i + 1) ⟨0, 0⟩).start
        = ((getItemAngles items r).getD i ⟨0, 0⟩).stop) ∧
    (∀ i, i < (getItemAngles items r).length →
      ((getItemAngles items r).getD i ⟨0, 0⟩).stop
          - ((getItemAngles items r).getD i ⟨0, 0⟩).start
        = 360 * (items.getD i ⟨1⟩).weight / totalWeight items) ∧
    (1 < (getItemAngles items r).length →
      ((getItemAngles items r).getD ((getItemAngles items r).length - 1) ⟨0, 0⟩).stop
        = ((getItemAngles items r).getD 0 ⟨0, 0⟩).start + 360) := by
  have hW' : totalWeight items ≠ 0 := ne_of_gt hW
  have hne : items ≠ [] := by
    intro h
    rw [h] at hW
    simp [totalWeight] at hW
  rw [getItemAngles_eq_acc items r hW']
  rw [anglesAcc_length]
  refine ⟨rfl, anglesAcc_getD_zero_start items r _ _ hne, ?_, ?_, ?_⟩
  · intro i hi
    exact anglesAcc_chain items r _ i _ hi
  · intro i hi
    rw [anglesAcc_extent items r _ i _ ⟨1⟩ hi]
    ring
  · intro _
    rw [anglesAcc_lastEnd items r _ _ hne,
      anglesAcc_getD_zero_start items r _ _ hne]
    have hmul : totalWeight items * (360 / totalWeight items) = 360 := by
      field_simp
    rw [hmul]

/-- C1 witness: a two-item wheel with weights 1 and 3 at base rotation 15
has positive total weight and its first range starts at 15. -/
theorem getItemAngles_partition_witness :
    0 < totalWeight [ItemW.mk 1, ItemW.mk 3] ∧
    ((getItemAngles [ItemW.mk 1, ItemW.mk 3] 15).getD 0 ⟨0, 0⟩).start = 15 :=
  ⟨by norm_num [totalWeight],
   (getItemAngles_partition [ItemW.mk 1, ItemW.mk 3] 15 (by norm_num [totalWeight])).2.1⟩

/-! Helper lemmas about the animation state machine. -/

theorem setRotation_rotationSpeed (w : Wheel) (v : ℚ) :
    (setRotation w v).rotationSpeed = w.rotationSpeed := rfl

theorem setRotation_rotationDirection (w : Wheel) (v : ℚ) :
    (setRotation w v).rotationDirection = w.rotationDirection := rfl

theorem setRotation_rotationResistance (w : Wheel) (v : ℚ) :
    (setRotation w v).rotationResistance = w.rotationResistance := rfl

theorem setRotation_restEvents (w : Wheel) (v : ℚ) :
    (setRotation w v).restEvents = w.restEvents := rfl

theorem setRotation_rotation (w : Wheel) (v : ℚ) :
    (setRotation w v).rotation = v := rfl

theorem getRotationSpeedPlusDrag_setRotation (w : Wheel) (v delta : ℚ) :
    getRotationSpeedPlusDrag (setRotation w v) delta
      = getRotationSpeedPlusDrag w delta := rfl

theorem animate_step_idle (w : Wheel) (tnow : ℚ) (h1 : w.spinToTimeEnd = none)
    (h2 : w.lastSpinFrameTime = none) : animateRotation w tnow = w := by
  unfold animateRotation
  rw [h1, h2]

theorem animate_step_noop (w : Wheel) (tnow t : ℚ) (h1 : w.spinToTimeEnd = none)
    (h2 : w.lastSpinFrameTime = some t) (h3 : tnow - t ≤ 0) :
    animateRotation w tnow = w := by
  unfold animateRotation
  rw [h1, h2]
  exact if_neg (not_lt.mpr h3)

theorem animate_step_active (w : Wheel) (tnow t : ℚ) (h1 : w.spinToTimeEnd = none)
    (h2 : w.lastSpinFrameTime = some t) :
    (animateRotation w tnow).spinToTimeEnd = none ∧
    (((animateRotation w tnow).lastSpinFrameTime ≠ none ∧
      (animateRotation w tnow).restEvents = w.restEvents) ∨
     ((animateRotation w tnow).lastSpinFrameTime = none ∧
      (animateRotation w tnow).restEvents.length = w.restEvents.length + 1)) := by
  unfold animateRotation
  rw [h1, h2]
  dsimp only
  by_cases hd : 0 < tnow - t
  · rw [if_pos hd]
    by_cases hz : getRotationSpeedPlusDrag
        (setRotation w (w.rotation + jsRem ((tnow - t) / 1000 * w.rotationSpeed) 360))
        (tnow - t) = 0
    · rw [if_pos hz]
      refine ⟨h1, Or.inr ⟨rfl, ?_⟩⟩
      simp [raiseRest, setRotation]
    · rw [if_neg hz]
      refine ⟨h1, Or.inl ⟨?_, rfl⟩⟩
      simp
  · rw [if_neg hd]
    exact ⟨h1, Or.inl ⟨by rw [h2]; simp, rfl⟩⟩

theorem runTicks_idle (w : Wheel) (ts : List ℚ) (h1 : w.spinToTimeEnd = none)
    (h2 : w.lastSpinFrameTime = none) : runTicks w ts = w := by
  induction ts with
  | nil => rfl
  | cons t ts ih =>
    show runTicks (animateRotation w t) ts = w
    rw [animate_step_idle w t h1 h2]
    exact ih

theorem runTicks_rest_once (ts : List ℚ) (w : Wheel) (h1 : w.spinToTimeEnd = none)
    (hact : w.lastSpinFrameTime ≠ none) :
    ((runTicks w ts).lastSpinFrameTime = none →
      (runTicks w ts).restEvents.length = w.restEvents.length + 1) ∧
    ((runTicks w ts).lastSpinFrameTime ≠ none →
      (runTicks w ts).restEvents.length = w.restEvents.length) := by
  induction ts generalizing w with
  | nil => exact ⟨fun h => absurd h hact, fun _ => rfl⟩
  | cons t ts ih =>
    obtain ⟨t0, ht0⟩ := Option.ne_none_iff_exists'.mp hact
    obtain ⟨hs1, hcase⟩ := animate_step_active w t t0 h1 ht0
    have hrun : runTicks w (t :: ts) = runTicks (animateRotation w t) ts := rfl
    rcases hcase with ⟨hne, hev⟩ | ⟨hidle, hlen⟩
    · obtain ⟨ha, hb⟩ := ih (animateRotation w t) hs1 hne
      rw [hev] at ha hb
      rw [hrun]
      exact ⟨ha, hb⟩
    · have hfix := runTicks_idle (animateRotation w t) ts hs1 hidle
      rw [hrun, hfix]
      exact ⟨fun _ => hlen, fun h => absurd hidle h⟩

/-- C2: for a velocity-decay spin the per-tick speed update never crosses
zero against the spin direction: with direction 1 the updated speed is
never negative, with direction -1 it is never positive and reaches 0 only
by the explicit clamp; on the tick where the decayed speed would cross
below zero (direction 1, negative resistance) the speed is set to exactly
0, the session becomes idle (lastSpinFrameTime cleared), and onRest is
raised there; over any sequence of further ticks onRest is raised exactly
once for the spin (once more than the starting count when the run ends
idle, never while still spinning, and an idle wheel never raises it). -/
theorem velocityDecay_rest (w : Wheel) (delta tnow t : ℚ) (ts : List ℚ) :
    (w.rotationDirection = 1 → 0 ≤ getRotationSpeedPlusDrag w delta) ∧
    (w.rotationDirection = -1 →
      getRotationSpeedPlusDrag w delta ≤ 0 ∧
      (0 ≤ w.rotationSpeed + w.rotationResistance * (delta / 1000) * w.rotationDirection →
        getRotationSpeedPlusDrag w delta = 0)) ∧
    (w.spinToTimeEnd = none → w.lastSpinFrameTime = some t → 0 < tnow - t →
      w.rotationDirection = 1 → w.rotationResistance < 0 →
      w.rotationSpeed + w.rotationResistance * ((tnow - t) / 1000) * w.rotationDirection < 0 →
      (animateRotation w tnow).rotationSpeed = 0 ∧
      (animateRotation w tnow).lastSpinFrameTime = none ∧
      (animateRotation w tnow).restEvents.length = w.restEvents.length + 1) ∧
    (w.spinToTimeEnd = none → w.lastSpinFrameTime ≠ none →
      ((runTicks w ts).lastSpinFrameTime = none →
        (runTicks w ts).restEvents.length = w.restEvents.length + 1) ∧
      ((runTicks w ts).lastSpinFrameTime ≠ none →
        (runTicks w ts).restEvents.length = w.restEvents.length)) := by
  refine ⟨?_, ?_, ?_, ?_⟩
  · intro hdir
    unfold getRotationSpeedPlusDrag
    by_cases hn : w.rotationSpeed + w.rotationResistance * (delta / 1000) * w.rotationDirection < 0
    · rw [if_pos (Or.inl ⟨hdir, hn⟩)]
    · rw [if_neg ?_]
      · exact not_lt.mp hn
      · rintro (⟨_, hlt⟩ | ⟨hd2, _⟩)
        · exact hn hlt
        · rw [hdir] at hd2
          norm_num at hd2
  · intro hdir
    constructor
    · unfold getRotationSpeedPlusDrag
      by_cases hn : 0 ≤ w.rotationSpeed + w.rotationResistance * (delta / 1000) * w.rotationDirection
      · rw [if_pos (Or.inr ⟨hdir, hn⟩)]
      · rw [if_neg ?_]
        · linarith [not_le.mp hn]
        · rintro (⟨hd2, _⟩ | ⟨_, hge⟩)
          · rw [hdir] at hd2
            norm_num at hd2
          · exact hn hge
    · intro hraw
      unfold getRotationSpeedPlusDrag
      rw [if_pos (Or.inr ⟨hdir, hraw⟩)]
  · intro h1 h2 hd hdir hres hraw
    unfold animateRotation
    rw [h1, h2]
    dsimp only
    rw [if_pos hd]
    have hz : getRotationSpeedPlusDrag
        (setRotation w (w.rotation + jsRem ((tnow - t) / 1000 * w.rotationSpeed) 360))
        (tnow - t) = 0 := by
      rw [getRotationSpeedPlusDrag_setRotation]
      unfold getRotationSpeedPlusDrag
      rw [if_pos (Or.inl ⟨hdir, hraw⟩)]
    rw [if_pos hz]
    refine ⟨hz, rfl, ?_⟩
    simp [raiseRest, setRotation]
  · intro h1 hact
    exact runTicks_rest_once ts w h1 hact

/-- C2 witness: a clockwise spin at speed 1 with resistance -1000 ticked
from time 0 to time 16 crosses zero: the speed becomes exactly 0, the
session becomes idle, and one onRest event is recorded. -/
theorem velocityDecay_rest_witness :
    (animateRotation wheelDecay 16).rotationSpeed = 0 ∧
    (animateRotation wheelDecay 16).lastSpinFrameTime = none := by
  have h := (velocityDecay_rest wheelDecay 16 16 0 []).2.2.1 rfl rfl
    (by norm_num) rfl (by norm_num [wheelDecay, baseWheel])
    (by norm_num [wheelDecay, baseWheel])
  exact ⟨h.1, h.2.1⟩

/-- C3: when a timed-ease (spinTo) session is advanced at a timestamp at
or past its end time, the rotation is set exactly to the target end
rotation (not via the easing formula, which is not evaluated at all), the
session ends, and onRest is raised carrying the final current index and
the final rotation. -/
theorem spinTo_completion (w : Wheel) (tnow timeEnd : ℚ)
    (hEnd : w.spinToTimeEnd = some timeEnd) (hNow : timeEnd ≤ tnow) :
    (animateRotation w tnow).rotation = w.spinToEndRotation ∧
    (animateRotation w tnow).spinToTimeEnd = none ∧
    (animateRotation w tnow).restEvents
      = ⟨(animateRotation w tnow).currentIndex, w.spinToEndRotation⟩ :: w.restEvents := by
  unfold animateRotation
  rw [hEnd]
  dsimp only
  rw [if_pos hNow]
  exact ⟨rfl, rfl, rfl⟩

/-- C3 witness: a spinTo session from rotation 10 to 370 ending at time
1000 and advanced at time 1000 lands exactly on 370 and goes idle. -/
theorem spinTo_completion_witness :
    (animateRotation wheelEase 1000).rotation = 370 ∧
    (animateRotation wheelEase 1000).spinToTimeEnd = none := by
  have h := spinTo_completion wheelEase 1000 1000 rfl (by norm_num)
  refine ⟨?_, h.2.1⟩
  rw [h.1]
  rfl

/-- C8: during an active velocity-decay session, an advance whose elapsed
delta since the last tick is zero or negative is a complete no-op: the
whole wheel state, in particular rotation, rotation speed and the
recorded last tick time, is unchanged. -/
theorem velocitySpin_nonpositive_delta_noop (w : Wheel) (tnow t : ℚ)
    (h1 : w.spinToTimeEnd = none) (h2 : w.lastSpinFrameTime = some t)
    (h3 : tnow - t ≤ 0) : animateRotation w tnow = w :=
  animate_step_noop w tnow t h1 h2 h3

/-- C8 witness: a wheel whose last spin frame was at time 10 advanced
with the earlier timestamp 5 is left unchanged. -/
theorem velocitySpin_nonpositive_delta_noop_witness :
    animateRotation wheelStale 5 = wheelStale :=
  velocitySpin_nonpositive_delta_noop wheelStale 5 10 rfl rfl (by norm_num)

/-! Helper lemmas about dragEnd. -/

theorem dragDistanceAt_takeWhile (tnow : ℚ) (evs : List DragEvent) :
    dragDistanceAt tnow evs
      = ((evs.takeWhile (fun e => !(isDragEventTooOld tnow e))).map
          DragEvent.distance).sum := by
  induction evs with
  | nil => rfl
  | cons e rest ih =>
    cases h : isDragEventTooOld tnow e with
    | true => simp [dragDistanceAt, h]
    | false => simp [dragDistanceAt, h, ih]

/-- C4: dragEnd sums the angular deltas of the drag history from newest
to oldest (the history is stored newest first), keeping exactly the
events inside the 250 ms capture window and truncating at the first stale
event; when the summed distance is 0 no spin is started (speed and frame
time untouched), and otherwise a velocity spin begins at time tnow with
stored speed distance * (1000 / 250) (clamped by rotationSpeedMax) and a
direction given by the sign of the stored speed. -/
theorem dragEnd_release (w : Wheel) (tnow : ℚ) :
    dragDistanceAt tnow w.dragEvents
      = ((w.dragEvents.takeWhile (fun e => !(isDragEventTooOld tnow e))).map
          DragEvent.distance).sum ∧
    (dragDistanceAt tnow w.dragEvents = 0 →
      (dragEnd w tnow).lastSpinFrameTime = w.lastSpinFrameTime ∧
      (dragEnd w tnow).rotationSpeed = w.rotationSpeed) ∧
    (dragDistanceAt tnow w.dragEvents ≠ 0 →
      (dragEnd w tnow).lastSpinFrameTime = some tnow ∧
      (dragEnd w tnow).rotationSpeed
        = limitSpeed (dragDistanceAt tnow w.dragEvents * (1000 / dragCapturePeriod))
            w.rotationSpeedMax ∧
      (dragEnd w tnow).rotationDirection
        = (if 0 ≤ (dragEnd w tnow).rotationSpeed then 1 else -1)) := by
  refine ⟨dragDistanceAt_takeWhile tnow w.dragEvents, ?_, ?_⟩
  · intro h0
    unfold dragEnd
    rw [if_pos h0]
    exact ⟨rfl, rfl⟩
  · intro hne
    unfold dragEnd
    rw [if_neg hne]
    unfold beginSpin stopWheel
    by_cases hs : limitSpeed (dragDistanceAt tnow w.dragEvents * (1000 / dragCapturePeriod))
        w.rotationSpeedMax ≠ 0
    · rw [if_pos hs]
      exact ⟨rfl, rfl, rfl⟩
    · rw [if_neg hs]
      exact ⟨rfl, rfl, rfl⟩

/-- C4 witness: three 10-degree moves at times 200, 100, 0 released at
time 200 are all inside the window; the summed distance 30 yields stored
speed 30 * (1000 / 250) = 120 within the default max 300, direction 1. -/
theorem dragEnd_release_witness :
    dragDistanceAt 200 wheelDragged.dragEvents = 30 ∧
    (dragEnd wheelDragged 200).rotationSpeed = 120 ∧
    (dragEnd wheelDragged 200).rotationDirection = 1 := by
  have h30 : dragDistanceAt 200 wheelDragged.dragEvents = 30 := by
    norm_num [wheelDragged, baseWheel, dragDistanceAt, isDragEventTooOld,
      dragCapturePeriod]
  have h := (dragEnd_release wheelDragged 200).2.2 (by rw [h30]; norm_num)
  have hsp : (dragEnd wheelDragged 200).rotationSpeed = 120 := by
    rw [h.2.1, h30]
    norm_num [limitSpeed, dragCapturePeriod, wheelDragged, baseWheel]
  refine ⟨h30, hsp, ?_⟩
  rw [h.2.2, hsp]
  norm_num

/-! Lemmas about the layout shape needed by the error-handling claims. -/

theorem setLastEnd_length (l : List Range) (v : ℚ) :
    (setLastEnd l v).length = l.length := by
  induction l with
  | nil => rfl
  | cons r rest ih =>
    cases rest with
    | nil => rfl
    | cons s rest2 => simpa [setLastEnd] using ih

theorem getItemAngles_length (items : List ItemW) (r : ℚ) :
    (getItemAngles items r).length = items.length := by
  by_cases hl : 1 < items.length
  · simp only [getItemAngles, if_pos hl, setLastEnd_length, anglesAcc_length]
  · simp only [getItemAngles, if_neg hl, anglesAcc_length]

/-- C7 counterexample: the claim says a non-empty item list with total
weight zero is rejected before layout proceeds; in fact the weight setter
accepts 0 without error and getItemAngles still produces one range for
the single zero-weight item instead of rejecting the input. -/
theorem zeroWeight_not_rejected_cex :
    itemWeightSet (JsVal.num 5) (JsVal.num 0) = (JsVal.num 0, false) ∧
    (getItemAngles [ItemW.mk 0] 7).length = 1 :=
  ⟨rfl, rfl⟩

/-- C7 amended: a zero total weight is not rejected: the Item weight
setter accepts the number 0 without throwing, and getItemAngles proceeds
unconditionally — it always performs the division 360 / totalWeight
(which is a division by zero in this case, yielding Infinity in JS) and
still returns one range per item. -/
theorem zeroWeight_layout_proceeds (items : List ItemW) (r : ℚ) (old : JsVal)
    (hne : items ≠ []) (hW : totalWeight items = 0) :
    (getItemAngles items r).length = items.length ∧
    itemWeightSet old (JsVal.num 0) = (JsVal.num 0, false) :=
  ⟨getItemAngles_length items r, rfl⟩

/-- C7 amended witness: the single-item list of weight zero has total
weight zero, is not rejected, and the layout still has one range. -/
theorem zeroWeight_layout_proceeds_witness :
    totalWeight [ItemW.mk 0] = 0 ∧ (getItemAngles [ItemW.mk 0] 7).length = 1 := by
  have hW : totalWeight [ItemW.mk 0] = 0 := by norm_num [totalWeight]
  have h := zeroWeight_layout_proceeds [ItemW.mk 0] 7 (JsVal.num 5)
    (by simp) hW
  exact ⟨hW, by simpa using h.1⟩

/-- C9 counterexample: the claim says assigning a defined but invalid
value to any Wheel or Item property throws and leaves the property
unchanged; the Item weight setter given the string value does not throw
and silently replaces the previous weight 5 with the default 1. -/
theorem itemSetter_silent_default_cex :
    itemWeightSet (JsVal.num 5) (JsVal.str "not a number") = (JsVal.num 1, false) :=
  rfl

/-- C9 amended: Wheel properties assigned through setProp do behave as
claimed — a defined invalid value throws with the property left
unchanged, and the default is substituted only for undefined — but Item
property setters never throw: any value failing the typeof test, defined
or not, is silently replaced by the item default. -/
theorem setProp_validation (old val dflt : JsVal) (msg : String)
    (act : Option (JsVal → JsVal)) :
    (val ≠ JsVal.undef → setProp false val msg dflt act = .error msg) ∧
    (val ≠ JsVal.undef → wheelAssign old false val msg dflt act = (old, true)) ∧
    wheelAssign old false JsVal.undef msg dflt act = (dflt, false) ∧
    (itemWeightSet old val).2 = false ∧
    (typeofNumber val = false → itemWeightSet old val = (JsVal.num 1, false)) ∧
    (borderColorValid val = false → val ≠ JsVal.undef →
      wheelBorderColorSet old val = (old, true)) := by
  refine ⟨?_, ?_, rfl, ?_, ?_, ?_⟩
  · intro h
    simp [setProp, h]
  · intro h
    simp [wheelAssign, setProp, h]
  · cases val <;> rfl
  · intro h
    cases val <;> simp_all [itemWeightSet, typeofNumber]
  · intro hv h
    simp [wheelBorderColorSet, wheelAssign, setProp, hv, h]

/-- C9 witness: assigning the number 3 to Wheel.borderColor (a defined
invalid value) throws and leaves the stored color unchanged. -/
theorem setProp_validation_witness :
    wheelBorderColorSet (JsVal.str "#fff") (JsVal.num 3) = (JsVal.str "#fff", true) :=
  (setProp_validation (JsVal.str "#fff") (JsVal.num 3) (JsVal.str "#000")
    "Wheel.borderColor must be a string" none).2.2.2.2.2 rfl (by simp)

/-- C10 counterexample: the claim says the pointerAngle setter throws
exactly when the value is not a number or is negative, yet assigning
undefined (which is not a number) does not throw — it stores the default
0. -/
theorem pointerAngle_undef_no_throw_cex :
    pointerAngleSet (JsVal.num 5) JsVal.undef = (JsVal.num 0, false) :=
  rfl

/-- C10 amended: the pointerAngle setter throws exactly when the value is
defined and fails the validity test (a non-NaN number at least 0);
undefined falls back to the default 0; every non-negative number q is
accepted and stored as q modulo 360, which always lies in the range zero
(inclusive) to 360 (exclusive), even when q is 360 or greater. -/
theorem pointerAngle_setter_spec (old val : JsVal) (q : ℚ) :
    ((pointerAngleSet old val).2 = true ↔
      (val ≠ JsVal.undef ∧ pointerAngleValid val = false)) ∧
    pointerAngleSet old JsVal.undef = (JsVal.num 0, false) ∧
    (0 ≤ q →
      pointerAngleSet old (JsVal.num q) = (JsVal.num (jsRem q 360), false) ∧
      0 ≤ jsRem q 360 ∧ jsRem q 360 < 360) := by
  refine ⟨?_, rfl, ?_⟩
  · cases val with
    | num q' =>
      by_cases h : 0 ≤ q' <;>
        simp [pointerAngleSet, wheelAssign, setProp, pointerAngleValid, h]
    | undef => simp [pointerAngleSet, wheelAssign, setProp, pointerAngleValid]
    | nullv => simp [pointerAngleSet, wheelAssign, setProp, pointerAngleValid]
    | nan => simp [pointerAngleSet, wheelAssign, setProp, pointerAngleValid]
    | str s => simp [pointerAngleSet, wheelAssign, setProp, pointerAngleValid]
    | boolv b => simp [pointerAngleSet, wheelAssign, setProp, pointerAngleValid]
  · intro hq
    refine ⟨?_, jsRem_bounds_of_nonneg q hq⟩
    simp [pointerAngleSet, wheelAssign, setProp, pointerAngleValid, hq]

/-- C10 witness: assigning 400 stores it modulo 360 without throwing, and
the stored value lies inside the range zero to 360. -/
theorem pointerAngle_setter_spec_witness :
    pointerAngleSet (JsVal.num 0) (JsVal.num 400)
      = (JsVal.num (jsRem 400 360), false) ∧
    0 ≤ jsRem (400 : ℚ) 360 ∧ jsRem (400 : ℚ) 360 < 360 :=
  (pointerAngle_setter_spec (JsVal.num 0) (JsVal.num 400) 400).2.2 (by norm_num)

/-! Lemmas for the spin-to-item claim: the layout at rotation R is the
layout at rotation 0 shifted by R, and angle sums that are whole
multiples of 360 normalize to 0. -/

theorem anglesAcc_shift (items : List ItemW) (c r wia : ℚ) :
    anglesAcc items (r + c) wia
      = (anglesAcc items c wia).map (fun a => ⟨r + a.start, r + a.stop⟩) := by
  induction items generalizing c with
  | nil => rfl
  | cons it rest ih =>
    simp only [anglesAcc, List.map_cons]
    rw [← ih (c + it.weight * wia)]
    have harg : r + c + it.weight * wia = r + (c + it.weight * wia) := by ring
    rw [harg]

theorem setLastEnd_map_shift (l : List Range) (r v : ℚ) :
    setLastEnd (l.map (fun a => ⟨r + a.start, r + a.stop⟩)) (r + v)
      = (setLastEnd l v).map (fun a => ⟨r + a.start, r + a.stop⟩) := by
  induction l with
  | nil => rfl
  | cons e rest ih =>
    cases rest with
    | nil => rfl
    | cons s rest2 =>
      simp only [List.map_cons, setLastEnd]
      rw [← List.map_cons (fun a => (⟨r + a.start, r + a.stop⟩ : Range)) s rest2, ih]

theorem headD_map_shift (l : List Range) (r : ℚ) (h : l ≠ []) :
    ((l.map (fun a => (⟨r + a.start, r + a.stop⟩ : Range))).headD ⟨0, 0⟩).start
      = r + (l.headD ⟨0, 0⟩).start := by
  cases l with
  | nil => exact absurd rfl h
  | cons e rest => rfl

theorem getItemAngles_shift (items : List ItemW) (r : ℚ) :
    getItemAngles items r
      = (getItemAngles items 0).map (fun a => ⟨r + a.start, r + a.stop⟩) := by
  have hacc : anglesAcc items r (360 / totalWeight items)
      = (anglesAcc items 0 (360 / totalWeight items)).map
          (fun a => ⟨r + a.start, r + a.stop⟩) := by
    have h := anglesAcc_shift items 0 r (360 / totalWeight items)
    rw [add_zero] at h
    exact h
  by_cases hl : 1 < items.length
  · have hne : items ≠ [] := by
      intro h
      rw [h] at hl
      simp at hl
    have hne2 : anglesAcc items 0 (360 / totalWeight items) ≠ [] := by
      intro h
      apply hne
      have hlen := anglesAcc_length items 0 (360 / totalWeight items)
      rw [h] at hlen
      exact List.length_eq_zero.mp hlen.symm
    simp only [getItemAngles, if_pos hl]
    rw [hacc, headD_map_shift _ r hne2]
    have hv : r + (((anglesAcc items 0 (360 / totalWeight items)).headD ⟨0, 0⟩).start)
        + 360
        = r + ((((anglesAcc items 0 (360 / totalWeight items)).headD ⟨0, 0⟩).start)
            + 360) := by
      ring
    rw [hv, setLastEnd_map_shift]
  · simp only [getItemAngles, if_neg hl]
    exact hacc

theorem jsRem_intMul (z : ℤ) : jsRem (360 * (z : ℚ)) 360 = 0 := by
  have hdiv : (360 * (z : ℚ)) / 360 = (z : ℚ) := by
    field_simp
  have ht : jsTrunc ((360 * (z : ℚ)) / 360) = z := by
    rw [hdiv, jsTrunc]
    by_cases h : (0 : ℚ) ≤ (z : ℚ)
    · rw [if_pos h, Int.floor_intCast]
    · rw [if_neg h, Int.ceil_intCast]
  rw [jsRem, ht]
  ring

theorem addAngle_eq_zero_of_intMul (a b : ℚ) (z : ℤ) (h : a + b = 360 * z) :
    addAngle a b = 0 := by
  obtain ⟨⟨h0, h1⟩, k, hk⟩ := addAngle_spec a b
  refine eq_of_sub_intmul (addAngle a b) 0 h0 h1 (le_refl 0) (by norm_num)
    (z - k) ?_
  rw [hk, h]
  push_cast
  ring

/-- C5: for every starting rotation representable at 9 decimal places (so
the fixFloat rounding inside calcWheelRotationForTargetAngle is exact, as
the claim allows), spinning to the item whose slice at base rotation 0 is
the range 0 to 90, with spinToCenter true, direction 1, zero revolutions
and pointer angle 0, yields a target rotation at which the item's center
in the layout at that rotation coincides with the pointer angle on the
circle. -/
theorem spinToItem_center_hits_pointer (w : Wheel) (idx : ℕ)
    (hp : w.pointerAngle = 0)
    (hrange : (getItemAngles w.items 0).getD idx ⟨0, 0⟩ = ⟨0, 90⟩)
    (hr : ∃ m : ℤ, w.rotation * 10 ^ 9 = m) :
    addAngle
      (centerAngleOf ((getItemAngles w.items
        (spinToItemTargetRotation w idx true 0 0 1)).getD idx ⟨0, 0⟩)) 0
      = w.pointerAngle := by
  obtain ⟨m, hm⟩ := hr
  have hidx : idx < (getItemAngles w.items 0).length := by
    by_contra hge
    rw [List.getD_eq_default _ _ (not_lt.mp hge)] at hrange
    exact absurd (congrArg Range.stop hrange) (by norm_num)
  -- the item's center in the base layout is 45
  have hc0 : getCenterAngle w.items idx = 45 := by
    unfold getCenterAngle centerAngleOf
    rw [hrange]
    norm_num
  -- name the intermediate quantities of calcWheelRotationForTargetAngle
  set X := jsRem (jsRem w.rotation 360 + 45) 360 with hXdef
  obtain ⟨t1, ht1⟩ : ∃ k : ℤ, jsRem w.rotation 360 = w.rotation - 360 * k :=
    ⟨jsTrunc (w.rotation / 360), rfl⟩
  obtain ⟨t2, ht2⟩ : ∃ k : ℤ, X = jsRem w.rotation 360 + 45 - 360 * k :=
    ⟨jsTrunc ((jsRem w.rotation 360 + 45) / 360), rfl⟩
  have hF : fixFloat X = X := by
    apply fixFloat_eq_self
    refine ⟨m + 45 * 10 ^ 9 - 360 * (t1 + t2) * 10 ^ 9, ?_⟩
    rw [ht2, ht1]
    push_cast
    linear_combination hm
  obtain ⟨t3, ht3⟩ : ∃ k : ℤ, jsRem (360 - X) 360 = 360 - X - 360 * k :=
    ⟨jsTrunc ((360 - X) / 360), rfl⟩
  -- the target rotation handed to animate
  set N := spinToItemTargetRotation w idx true 0 0 1 with hNdef
  have hN : N = w.rotation + jsRem (360 - X) 360 := by
    rw [hNdef]
    unfold spinToItemTargetRotation calcWheelRotationForTargetAngle
    rw [if_pos rfl, hc0, hp]
    dsimp only
    rw [if_pos rfl]
    have harg : (45 : ℚ) - 0 = 45 := by norm_num
    rw [harg, ← hXdef, hF]
    ring
  -- the slice center in the layout at rotation N sits at N + 45
  have hcN : centerAngleOf ((getItemAngles w.items N).getD idx ⟨0, 0⟩)
      = N + 45 := by
    have hlen : idx < (getItemAngles w.items N).length := by
      rw [getItemAngles_shift w.items N, List.length_map]
      exact hidx
    rw [List.getD_eq_getElem _ _ hlen]
    have hget : (getItemAngles w.items N)[idx]
        = ⟨N + ((getItemAngles w.items 0)[idx]).start,
           N + ((getItemAngles w.items 0)[idx]).stop⟩ := by
      simp only [getItemAngles_shift w.items N, List.getElem_map]
    rw [hget, ← List.getD_eq_getElem _ ⟨0, 0⟩ hidx, hrange]
    unfold centerAngleOf
    dsimp only
    ring
  rw [hcN, hp]
  apply addAngle_eq_zero_of_intMul (N + 45) 0 (1 + t1 + t2 - t3)
  rw [hN, ht3, ht2, ht1]
  push_cast
  ring

/-- C5 witness: with a four-slice equal wheel (first slice 0 to 90),
pointer at 0, starting rotation 123.456, the computed target rotation
places the first item's center on the pointer. -/
theorem spinToItem_center_hits_pointer_witness :
    (wheelQuarter.pointerAngle = 0) ∧
    ((getItemAngles wheelQuarter.items 0).getD 0 ⟨0, 0⟩ = ⟨0, 90⟩) ∧
    addAngle
      (centerAngleOf ((getItemAngles wheelQuarter.items
        (spinToItemTargetRotation wheelQuarter 0 true 0 0 1)).getD 0 ⟨0, 0⟩)) 0
      = wheelQuarter.pointerAngle := by
  have hrange : (getItemAngles wheelQuarter.items 0).getD 0 ⟨0, 0⟩ = ⟨0, 90⟩ := by
    norm_num [wheelQuarter, baseWheel, getItemAngles, totalWeight, anglesAcc,
      setLastEnd, List.getD]
  refine ⟨rfl, hrange, ?_⟩
  exact spinToItem_center_hits_pointer wheelQuarter 0 rfl hrange
    ⟨123456000000, by norm_num [wheelQuarter, baseWheel]⟩

end SpinWheel
